import Mathlib

/-!
Shallow embedding of the training script `main.py` of the word-language-model
repository: batchification, window sampling, the manual SGD step, the logging
accumulator, the evaluation loop and the epoch controller.

Token streams are lists of natural numbers (token ids); losses, learning
rates and loss accumulators are rationals.
-/

/-- Function `batchify` (main.py, lines 56-65): trims the token stream to the largest
multiple of `bsz`, views it as a `bsz x nbatch` matrix and transposes it, so
the step-`r`, stream-`c` entry of the grid is token number `c * nbatch + r`
of the stream. -/
def batchify (data : List Nat) (bsz : Nat) : List (List Nat) :=
  let nbatch := data.length / bsz
  let trimmed := data.take (nbatch * bsz)
  (List.range nbatch).map (fun r => (List.range bsz).map (fun c => trimmed.getD (c * nbatch + r) 0))

/-- Function `get_batch` (main.py, lines 94-98): `seq_len = min(bptt, len(source) - 1 - i)`,
input is `source[i : i+seq_len]` and the target is `source[i+1 : i+1+seq_len]`
flattened row-major by `.view(-1)`.  The `evaluation` flag only switches
autodiff volatility and does not affect the returned values, so it is omitted. -/
def get_batch (source : List (List Nat)) (i : Nat) (bptt : Nat) : List (List Nat) × List Nat :=
  let seq_len := min bptt (source.length - 1 - i)
  ((source.drop i).take seq_len, ((source.drop (i+1)).take seq_len).flatten)

/-- The window offsets `range(0, steps - 1, bptt)` iterated by both `train`
(main.py line 129) and `evaluate` (main.py line 108). -/
def windowStarts (steps bptt : Nat) : List Nat :=
  (List.range (((steps - 1) + bptt - 1) / bptt)).map (fun k => k * bptt)

/-- A trainable tensor of the model, reduced to one scalar coordinate:
`data` is the parameter value, `requires_grad` the trainable flag and `grad`
the gradient slot (`none` mirrors a PyTorch gradient that is `None`). -/
structure Param where
  data : ℚ
  requires_grad : Bool
  grad : Option ℚ
  deriving Repr, DecidableEq

/-- Call `model.zero_grad()` (main.py line 134): every existing gradient is reset
to zero; a parameter whose gradient slot is empty keeps it empty. -/
def zero_grad (ps : List Param) : List Param :=
  ps.map (fun p => { p with grad := p.grad.map (fun _ => 0) })

/-- Call `train_loss.backward()` (main.py line 145): autodiff accumulates the
window gradient `g` of each parameter into its gradient slot; a parameter
outside the graph of the loss (`g = none`) is left untouched. -/
def backward_accum (ps : List Param) (gs : List (Option ℚ)) : List Param :=
  List.zipWith (fun p g =>
    match g with
    | none => p
    | some gv => { p with grad := some (p.grad.getD 0 + gv) }) ps gs

/-- Call `torch.nn.utils.clip_grad_norm(model.parameters(), args.clip)`
(main.py line 156) rescales every gradient by one common factor
`min(1, clip / total_norm)`; the total norm involves a square root, so the
common factor is abstracted as the parameter `c`. -/
def clip_grads (c : ℚ) (ps : List Param) : List Param :=
  ps.map (fun p => { p with grad := p.grad.map (fun g => c * g) })

/-- The manual SGD update (main.py lines 157-159): for every parameter with
`requires_grad`, `p.data.add_(-lr, p.grad.data)`; a trainable parameter whose
gradient slot is empty makes the Python loop fail (`None` has no `.data`),
which is modelled by returning `none`. -/
def sgd_update (lr : ℚ) : List Param → Option (List Param)
  | [] => some []
  | p :: ps =>
    if p.requires_grad then
      match p.grad with
      | some g =>
        (sgd_update lr ps).map (fun rest => { p with data := p.data + (-lr) * g } :: rest)
      | none => none
    else
      (sgd_update lr ps).map (fun rest => p :: rest)

/-- The per-window optimizer path of `train` (main.py lines 134, 145,
156-159): zero the gradients before the forward/backward of the window,
accumulate the window gradients `gs`, clip them by the common factor `c`,
then apply the manual SGD step with the shared learning rate `lr`. -/
def train_window_update (lr c : ℚ) (ps : List Param) (gs : List (Option ℚ)) :
    Option (List Param) :=
  sgd_update lr (clip_grads c (backward_accum (zero_grad ps) gs))

/-- The running-loss/logging state machine of `train` (main.py lines 129,
161-175), restricted to the values it reports: `batch` is the window counter,
`total` the running cross-entropy accumulator `total_loss`; at every window
the current cross-entropy is accumulated (line 161), and when
`batch % log_interval == 0 and batch > 0` (line 163) the line value
`cur_loss = total_loss / log_interval` (line 164) is emitted and the
accumulator reset (line 174). -/
def trainLogsAux (logInterval : Nat) (batch : Nat) (total : ℚ) : List ℚ → List ℚ
  | [] => []
  | ce :: rest =>
    let t := total + ce
    if batch % logInterval = 0 ∧ 0 < batch then
      (t / (logInterval : ℚ)) :: trainLogsAux logInterval (batch + 1) 0 rest
    else
      trainLogsAux logInterval (batch + 1) t rest

/-- The sequence of `ce loss` values printed by one epoch of `train`, given
the per-window cross-entropy values of that epoch. -/
def trainLogs (logInterval : Nat) (ces : List ℚ) : List ℚ :=
  trainLogsAux logInterval 0 0 ces

/-- Reference description of the logging output after the first line: every
complete block of `logInterval` further windows produces one line holding
the arithmetic mean of that block. -/
def chunkMeans (logInterval : Nat) (l : List ℚ) : List ℚ :=
  if h : logInterval = 0 ∨ l.length < logInterval then []
  else
    ((l.take logInterval).sum / (logInterval : ℚ))
      :: chunkMeans logInterval (l.drop logInterval)
termination_by l.length
decreasing_by simp only [List.length_drop]; omega

/-- Reference description of the full logging output of one epoch: the first
line appears once windows `0 .. logInterval` (that is `logInterval + 1`
windows) have been processed and reports their sum divided by `logInterval`,
and every later line reports the arithmetic mean of the `logInterval`
windows since the previous line. -/
def trainLogsSpec (logInterval : Nat) (ces : List ℚ) : List ℚ :=
  if ces.length ≤ logInterval then []
  else
    ((ces.take (logInterval + 1)).sum / (logInterval : ℚ))
      :: chunkMeans logInterval (ces.drop (logInterval + 1))

/-- The save condition of the epoch loop (main.py line 196):
`if not best_val_loss or val_loss < best_val_loss`.  Python truthiness makes
`not best_val_loss` true both when no best exists (`None`) and when the
recorded best is exactly `0.0`. -/
def saveCond (best : Option ℚ) (val : ℚ) : Bool :=
  match best with
  | none => true
  | some b => decide (b = 0) || decide (val < b)

/-- The mutable state of the epoch loop (main.py lines 177-207): the best
validation loss seen so far, the shared learning rate `lr`, and the content
of the checkpoint file `model.pt`, recorded as the number of the epoch whose
model was saved (`none` while no checkpoint has been written). -/
structure CtrlState where
  best : Option ℚ
  lr : ℚ
  checkpoint : Option Nat
  deriving Repr, DecidableEq

/-- One epoch tail (main.py lines 195-202): save the model and update the
best loss when `saveCond` holds, otherwise divide the learning rate by 4.
The boolean reports whether the checkpoint was written this epoch. -/
def runEpoch (s : CtrlState) (epoch : Nat) (val : ℚ) : CtrlState × Bool :=
  if saveCond s.best val then
    ({ best := some val, lr := s.lr, checkpoint := some epoch }, true)
  else
    ({ s with lr := s.lr / 4 }, false)

/-- The epoch loop over a list of per-epoch validation losses, with epochs
numbered from `epoch`; returns the final state and the per-epoch
checkpoint-written flags. -/
def runEpochsAux (s : CtrlState) (epoch : Nat) : List ℚ → CtrlState × List Bool
  | [] => (s, [])
  | v :: vs =>
    let stepped := runEpoch s epoch v
    let rest := runEpochsAux stepped.1 (epoch + 1) vs
    (rest.1, stepped.2 :: rest.2)

/-- The whole epoch loop (main.py lines 177-207) starting from
`lr = args.lr`, `best_val_loss = None` and no checkpoint on disk, with
epochs numbered from 1 as in `range(1, args.epochs + 1)`. -/
def runEpochs (lr0 : ℚ) (vals : List ℚ) : CtrlState × List Bool :=
  runEpochsAux { best := none, lr := lr0, checkpoint := none } 1 vals

/-- The top level of the script (main.py lines 182-218): run the epoch loop
over the per-epoch validation losses, truncated to the first `k` epochs when
a `KeyboardInterrupt` arrives after `k` completed epochs; then reopen
`model.pt`.  When a checkpoint exists, the final test evaluation runs on the
model saved at that epoch (`Except.ok`); when no checkpoint was ever
written, the reload `open(model_path, 'rb')` fails before any test
evaluation happens (`Except.error`). -/
def programRun (lr0 : ℚ) (vals : List ℚ) (interruptAfter : Option Nat) : Except Unit Nat :=
  let completed := match interruptAfter with
    | none => vals
    | some k => vals.take k
  match (runEpochs lr0 completed).1.checkpoint with
  | some e => Except.ok e
  | none => Except.error ()

/-- Constant `eval_batch_size = 10` (main.py line 67). -/
def eval_batch_size : Nat := 10

/-- The external model capability (main.py lines 77, 106, 110): parameters,
the module-level training flag toggled by `model.train()` and `model.eval()`,
`init_hidden`, and the forward step mapping a window and a hidden state to
an output and a new hidden state; the forward step sees the training flag
(dropout).  `H` is the opaque hidden-state type and `O` the opaque output
type. -/
structure RNNModel (H O : Type) where
  params : List Param
  training : Bool
  init_hidden : Nat → H
  forward : Bool → List (List Nat) → H → O × H

/-- Function `repackage_hidden` (main.py lines 87-92) wraps the hidden state in fresh
`Variable`s: it severs autodiff history and leaves the value unchanged. -/
def repackage_hidden {H : Type} (h : H) : H := h

/-- The hidden state built at the start of `evaluate` (main.py line 106):
`model.init_hidden(eval_batch_size)`. -/
def evalInitHidden {H O : Type} (m : RNNModel H O) : H :=
  m.init_hidden eval_batch_size

/-- Function `evaluate` (main.py lines 101-114): switch to evaluation mode, start
from `init_hidden(eval_batch_size)`, walk the windows accumulating
`len(data) * criterion(output_flat, targets)`, repackage the hidden state
after each window, and finally divide by `len(data_source)`.  `crit` is the
opaque `nn.CrossEntropyLoss` applied to the flattened output of a window.
The model is returned alongside the loss because the script mutates the
global `model` (its training flag) through this call. -/
def evaluate {H O : Type} (crit : O → List Nat → ℚ) (bptt : Nat)
    (m : RNNModel H O) (data_source : List (List Nat)) : ℚ × RNNModel H O :=
  let me := { m with training := false }
  let r := (windowStarts data_source.length bptt).foldl
    (fun (acc : ℚ × H) i =>
      let dt := get_batch data_source i bptt
      let oh := me.forward me.training dt.1 acc.2
      (acc.1 + (dt.1.length : ℚ) * crit oh.1 dt.2, repackage_hidden oh.2))
    ((0 : ℚ), evalInitHidden me)
  (r.1 / (data_source.length : ℚ), me)

/-- The per-window cross-entropy values produced along the hidden-state
chain of a window sequence, starting from a given hidden state. -/
def cesAux {H O : Type} (crit : O → List Nat → ℚ) (bptt : Nat)
    (m : RNNModel H O) (ds : List (List Nat)) : List Nat → H → List ℚ
  | [], _ => []
  | i :: is, h =>
    let dt := get_batch ds i bptt
    let oh := m.forward m.training dt.1 h
    crit oh.1 dt.2 :: cesAux crit bptt m ds is (repackage_hidden oh.2)

/-- The cross-entropy value of each window visited by `evaluate`. -/
def windowCEs {H O : Type} (crit : O → List Nat → ℚ) (bptt : Nat)
    (m : RNNModel H O) (ds : List (List Nat)) : List ℚ :=
  cesAux crit bptt { m with training := false } ds
    (windowStarts ds.length bptt) (evalInitHidden { m with training := false })

/-- The data setup of the script (main.py lines 67-70): the training stream
is batchified with the CLI `--batch-size`, the validation and test streams
always with `eval_batch_size`. -/
def setupData (trainStream validStream testStream : List Nat) (batchSize : Nat) :
    List (List Nat) × List (List Nat) × List (List Nat) :=
  (batchify trainStream batchSize,
   batchify validStream eval_batch_size,
   batchify testStream eval_batch_size)

/-- A degenerate instantiation of the opaque model interface, used to
exhibit concrete runs of `evaluate`. -/
def toyModel : RNNModel Unit Unit :=
  { params := [], training := true,
    init_hidden := fun _ => (), forward := fun _ _ h => ((), h) }

/-- A degenerate criterion: the number of target positions of the window. -/
def toyCrit : Unit → List Nat → ℚ := fun _ t => (t.length : ℚ)

/-! ## Theorems -/

theorem sum_map_length_const {α : Type} (B : Nat) :
    ∀ (l : List (List α)), (∀ r ∈ l, r.length = B) → (l.map List.length).sum = l.length * B := by
  intro l
  induction l with
  | nil => intro _; simp
  | cons r rs ih =>
    intro h
    have hr : r.length = B := h r (by simp)
    have hrs : (rs.map List.length).sum = rs.length * B :=
      ih (fun x hx => h x (by simp [hx]))
    simp [hr, hrs, Nat.succ_mul, Nat.add_comm]

theorem length_flatten_const {α : Type} (B : Nat) (l : List (List α))
    (h : ∀ r ∈ l, r.length = B) : l.flatten.length = l.length * B := by
  rw [List.length_flatten]
  exact sum_map_length_const B l h

theorem batchify_length (data : List Nat) (bsz : Nat) :
    (batchify data bsz).length = data.length / bsz := by
  simp [batchify]

theorem batchify_row_length (data : List Nat) (bsz : Nat) :
    ∀ row ∈ batchify data bsz, row.length = bsz := by
  intro row hrow
  simp only [batchify, List.mem_map, List.mem_range] at hrow
  obtain ⟨r, _, rfl⟩ := hrow
  simp

theorem batchify_entry_mem (data : List Nat) (bsz : Nat) :
    ∀ row ∈ batchify data bsz, ∀ x ∈ row, x ∈ data.take (bsz * (data.length / bsz)) := by
  intro row hrow x hx
  rw [Nat.mul_comm bsz (data.length / bsz)]
  simp only [batchify, List.mem_map, List.mem_range] at hrow
  obtain ⟨r, hr, rfl⟩ := hrow
  simp only [List.mem_map, List.mem_range] at hx
  obtain ⟨c, hc, rfl⟩ := hx
  set nbatch := data.length / bsz with hnb
  have htrim : (data.take (nbatch * bsz)).length = nbatch * bsz := by
    rw [List.length_take]
    have : nbatch * bsz ≤ data.length := Nat.div_mul_le_self data.length bsz
    omega
  have hidx : c * nbatch + r < (data.take (nbatch * bsz)).length := by
    rw [htrim]
    have h1 : (c + 1) * nbatch ≤ bsz * nbatch := Nat.mul_le_mul_right nbatch hc
    rw [Nat.succ_mul] at h1
    have h2 : bsz * nbatch = nbatch * bsz := Nat.mul_comm bsz nbatch
    omega
  rw [List.getD_eq_getElem _ _ hidx]
  exact List.getElem_mem hidx

/-- C2: for a stream of length `N >= B` with stream-count `B >= 1`, `batchify`
returns a grid of exactly `N / B` rows and `B` columns, and every entry of the
grid comes from the first `B * (N / B)` tokens of the stream, so no later token
appears in the output. -/
theorem batchify_shape_and_truncation (data : List Nat) (bsz : Nat)
    (h1 : 1 ≤ bsz) (h2 : bsz ≤ data.length) :
    (batchify data bsz).length = data.length / bsz ∧
    (∀ row ∈ batchify data bsz, row.length = bsz) ∧
    (∀ row ∈ batchify data bsz, ∀ x ∈ row, x ∈ data.take (bsz * (data.length / bsz))) :=
  ⟨batchify_length data bsz, batchify_row_length data bsz, batchify_entry_mem data bsz⟩

theorem batchify_shape_and_truncation_witness :
    1 ≤ 2 ∧ 2 ≤ [10, 20, 30, 40, 50].length ∧
    ((batchify [10, 20, 30, 40, 50] 2).length = [10, 20, 30, 40, 50].length / 2 ∧
     (∀ row ∈ batchify [10, 20, 30, 40, 50] 2, row.length = 2) ∧
     (∀ row ∈ batchify [10, 20, 30, 40, 50] 2, ∀ x ∈ row,
        x ∈ [10, 20, 30, 40, 50].take (2 * ([10, 20, 30, 40, 50].length / 2)))) :=
  ⟨by decide, by decide,
   batchify_shape_and_truncation [10, 20, 30, 40, 50] 2 (by decide) (by decide)⟩

theorem window_rows_length (source : List (List Nat)) (B j L : Nat)
    (hB : ∀ row ∈ source, row.length = B) :
    ((source.drop j).take L).flatten.length = ((source.drop j).take L).length * B := by
  apply length_flatten_const
  intro r hr
  exact hB r (List.mem_of_mem_drop (List.mem_of_mem_take hr))

/-- C3: `get_batch` at a valid offset `i` returns the grid slice
`grid[i : i+L]` as input and the slice `grid[i+1 : i+1+L]` flattened as
target, with `L = min(bptt, steps - 1 - i)`; the target slice is the input
region shifted by one step, the input has exactly `L` rows, and input and
target cover the same number `L * B` of positions. -/
theorem get_batch_window_spec (source : List (List Nat)) (B i bptt : Nat)
    (hB : ∀ row ∈ source, row.length = B) (hi : i + 1 < source.length) :
    (get_batch source i bptt).1 = (source.drop i).take (min bptt (source.length - 1 - i)) ∧
    (get_batch source i bptt).2 =
      ((source.drop (i+1)).take (min bptt (source.length - 1 - i))).flatten ∧
    (source.drop (i+1)).take (min bptt (source.length - 1 - i)) =
      ((source.drop i).take (min bptt (source.length - 1 - i) + 1)).drop 1 ∧
    (get_batch source i bptt).1.length = min bptt (source.length - 1 - i) ∧
    (get_batch source i bptt).2.length = min bptt (source.length - 1 - i) * B ∧
    ((get_batch source i bptt).1.flatten).length = (get_batch source i bptt).2.length := by
  refine ⟨rfl, rfl, ?_, ?_, ?_, ?_⟩
  · have harith : i + 1 + min bptt (source.length - 1 - i)
        = i + (min bptt (source.length - 1 - i) + 1) := by omega
    rw [List.take_drop, List.take_drop, List.drop_drop, harith]
  · show ((source.drop i).take (min bptt (source.length - 1 - i))).length = _
    rw [List.length_take, List.length_drop]
    omega
  · show (((source.drop (i+1)).take (min bptt (source.length - 1 - i))).flatten).length = _
    have hmin : min (min bptt (source.length - 1 - i)) (source.length - (i+1))
        = min bptt (source.length - 1 - i) := by omega
    rw [window_rows_length source B (i+1) _ hB, List.length_take, List.length_drop, hmin]
  · show (((source.drop i).take (min bptt (source.length - 1 - i))).flatten).length
      = (((source.drop (i+1)).take (min bptt (source.length - 1 - i))).flatten).length
    have hm1 : min (min bptt (source.length - 1 - i)) (source.length - i)
        = min bptt (source.length - 1 - i) := by omega
    have hm2 : min (min bptt (source.length - 1 - i)) (source.length - (i+1))
        = min bptt (source.length - 1 - i) := by omega
    rw [window_rows_length source B i _ hB, window_rows_length source B (i+1) _ hB,
      List.length_take, List.length_drop, List.length_take, List.length_drop, hm1, hm2]

theorem get_batch_window_spec_witness :
    (∀ row ∈ [[1, 2], [3, 4], [5, 6]], row.length = 2) ∧ 0 + 1 < [[1, 2], [3, 4], [5, 6]].length ∧
    ((get_batch [[1, 2], [3, 4], [5, 6]] 0 5).1 =
       ([[1, 2], [3, 4], [5, 6]].drop 0).take (min 5 ([[1, 2], [3, 4], [5, 6]].length - 1 - 0)) ∧
     (get_batch [[1, 2], [3, 4], [5, 6]] 0 5).2 =
       (([[1, 2], [3, 4], [5, 6]].drop (0+1)).take
         (min 5 ([[1, 2], [3, 4], [5, 6]].length - 1 - 0))).flatten ∧
     ([[1, 2], [3, 4], [5, 6]].drop (0+1)).take (min 5 ([[1, 2], [3, 4], [5, 6]].length - 1 - 0)) =
       (([[1, 2], [3, 4], [5, 6]].drop 0).take
         (min 5 ([[1, 2], [3, 4], [5, 6]].length - 1 - 0) + 1)).drop 1 ∧
     (get_batch [[1, 2], [3, 4], [5, 6]] 0 5).1.length =
       min 5 ([[1, 2], [3, 4], [5, 6]].length - 1 - 0) ∧
     (get_batch [[1, 2], [3, 4], [5, 6]] 0 5).2.length =
       min 5 ([[1, 2], [3, 4], [5, 6]].length - 1 - 0) * 2 ∧
     ((get_batch [[1, 2], [3, 4], [5, 6]] 0 5).1.flatten).length =
       (get_batch [[1, 2], [3, 4], [5, 6]] 0 5).2.length) :=
  ⟨by decide, by decide,
   get_batch_window_spec [[1, 2], [3, 4], [5, 6]] 2 0 5 (by decide) (by decide)⟩

theorem mem_windowStarts_lt (steps bptt : Nat) (hb : 1 ≤ bptt) (hs : 2 ≤ steps) :
    ∀ i ∈ windowStarts steps bptt, i < steps - 1 := by
  intro i hi
  simp only [windowStarts, List.mem_map, List.mem_range] at hi
  obtain ⟨k, hk, rfl⟩ := hi
  have h1 : k + 1 ≤ ((steps - 1) + bptt - 1) / bptt := hk
  have h2 : (k + 1) * bptt ≤ (((steps - 1) + bptt - 1) / bptt) * bptt :=
    Nat.mul_le_mul_right bptt h1
  have h3 : (((steps - 1) + bptt - 1) / bptt) * bptt ≤ (steps - 1) + bptt - 1 :=
    Nat.div_mul_le_self _ _
  rw [Nat.succ_mul] at h2
  omega

/-- C4: for every grid with at least 2 steps, every offset generated by the
shared window iteration `range(0, steps - 1, bptt)` of `train` and `evaluate`
yields a window length `seq_len = min(bptt, steps - 1 - i)` of at least 1,
and `get_batch` at such an offset never returns an empty input window. -/
theorem window_length_positive (g : List (List Nat)) (bptt : Nat)
    (hb : 1 ≤ bptt) (hs : 2 ≤ g.length) :
    ∀ i ∈ windowStarts g.length bptt,
      1 ≤ min bptt (g.length - 1 - i) ∧ 1 ≤ (get_batch g i bptt).1.length := by
  intro i hi
  have hlt : i < g.length - 1 := mem_windowStarts_lt g.length bptt hb hs i hi
  constructor
  · omega
  · show 1 ≤ ((g.drop i).take (min bptt (g.length - 1 - i))).length
    rw [List.length_take, List.length_drop]
    omega

theorem window_length_positive_witness :
    1 ≤ 2 ∧ 2 ≤ [[0], [1], [2]].length ∧
    (∀ i ∈ windowStarts [[0], [1], [2]].length 2,
       1 ≤ min 2 ([[0], [1], [2]].length - 1 - i) ∧
       1 ≤ (get_batch [[0], [1], [2]] i 2).1.length) :=
  ⟨by decide, by decide, window_length_positive [[0], [1], [2]] 2 (by decide) (by decide)⟩

/-- Counterexample to C1 as stated: on the validation-loss sequence
`[0, 1]` the first epoch records best `0`; the second epoch's loss `1` is
not strictly lower than that existing best, yet the code writes the
checkpoint again (flag `true`) and leaves the learning rate undivided,
because `not best_val_loss` treats the falsy best `0.0` like an absent
one. -/
theorem epoch_controller_counterexample :
    (runEpochs 20 [(0 : ℚ)]).1.best = some 0 ∧
    (runEpochs 20 [0, 1]).2 = [true, true] ∧
    (runEpochs 20 [0, 1]).1.lr = 20 ∧
    ¬((1 : ℚ) < 0) := by
  refine ⟨by decide, by decide, by decide, by norm_num⟩

/-- C1 (amended): at the end of every epoch, the checkpoint is written and
best-loss updated exactly when the validation loss is strictly lower than
the best seen so far, or no best exists yet, or the recorded best is exactly
0; otherwise (and only otherwise) the shared learning rate is divided by 4.
For the sequence `[5, 4, 4.5, 3]` checkpoints are written after epochs 1, 2
and 4 but not 3, and the final checkpoint is epoch 4's model. -/
theorem epoch_controller_amended (s : CtrlState) (e : Nat) (v : ℚ) :
    ((runEpoch s e v).2 = true ↔
      s.best = none ∨ ∃ b, s.best = some b ∧ (b = 0 ∨ v < b)) ∧
    (runEpoch s e v).1 =
      (if (runEpoch s e v).2 then
        { best := some v, lr := s.lr, checkpoint := some e }
      else
        { best := s.best, lr := s.lr / 4, checkpoint := s.checkpoint }) ∧
    (runEpochs 20 [5, 4, 9/2, 3]).2 = [true, true, false, true] ∧
    (runEpochs 20 [5, 4, 9/2, 3]).1.checkpoint = some 4 := by
  refine ⟨?_, ?_,
    by norm_num [runEpochs, runEpochsAux, runEpoch, saveCond],
    by norm_num [runEpochs, runEpochsAux, runEpoch, saveCond]⟩
  · unfold runEpoch
    cases hb : s.best with
    | none => simp [saveCond]
    | some b =>
      by_cases h0 : b = (0 : ℚ)
      · simp [saveCond, h0]
      · by_cases hv : v < b
        · simp [saveCond, h0, hv]
        · simp [saveCond, h0, hv]
  · unfold runEpoch
    by_cases h : saveCond s.best v
    · simp [h]
    · simp [h]

theorem runEpochsAux_checkpoint_isSome :
    ∀ (l : List ℚ) (s : CtrlState) (e : Nat),
      s.checkpoint.isSome = true → ((runEpochsAux s e l).1.checkpoint).isSome = true := by
  intro l
  induction l with
  | nil => intro s e h; exact h
  | cons v vs ih =>
    intro s e h
    simp only [runEpochsAux]
    apply ih
    unfold runEpoch
    by_cases hc : saveCond s.best v <;> simp [hc, h]

theorem runEpochsAux_checkpoint_none_iff :
    ∀ (l : List ℚ) (s : CtrlState) (e : Nat),
      ((runEpochsAux s e l).1.checkpoint = none) ↔
        (s.checkpoint = none ∧ (runEpochsAux s e l).2.all (fun b => !b) = true) := by
  intro l
  induction l with
  | nil => intro s e; simp [runEpochsAux]
  | cons v vs ih =>
    intro s e
    simp only [runEpochsAux, List.all_cons]
    by_cases hc : saveCond s.best v
    · have h1 : runEpoch s e v = ({ best := some v, lr := s.lr, checkpoint := some e }, true) := by
        simp [runEpoch, hc]
      rw [h1]
      have h2 := runEpochsAux_checkpoint_isSome vs
        { best := some v, lr := s.lr, checkpoint := some e } (e + 1) (by simp)
      constructor
      · intro h3
        rw [h3] at h2
        simp at h2
      · rintro ⟨-, h3⟩
        simp at h3
    · have h1 : runEpoch s e v = ({ s with lr := s.lr / 4 }, false) := by
        simp [runEpoch, hc]
      rw [h1, ih]
      simp

/-- Counterexample to C8 as stated: a `KeyboardInterrupt` before any epoch
has completed (so before any checkpoint has been saved) makes the program
fail when reopening `model.pt`, instead of performing the final test
evaluation. -/
theorem interruption_counterexample :
    programRun 20 [5] (some 0) = Except.error () ∧
    (runEpochs 20 (([5] : List ℚ).take 0)).1.checkpoint = none :=
  ⟨rfl, rfl⟩

/-- C8 (amended): a user interruption after `k` completed epochs is not
treated as an error: the run continues exactly like a run whose epoch loop
ended normally after those `k` epochs, and the final test evaluation runs on
the best checkpoint saved so far, provided at least one checkpoint exists;
when the interruption arrives before any checkpoint has been saved, the
checkpoint reload fails and no test evaluation is performed.  A checkpoint
is absent exactly when no epoch ever wrote one. -/
theorem interruption_amended (lr0 : ℚ) (vals : List ℚ) (k : Nat) :
    programRun lr0 vals (some k) = programRun lr0 (vals.take k) none ∧
    programRun lr0 vals (some k) =
      ((runEpochs lr0 (vals.take k)).1.checkpoint).elim (Except.error ()) Except.ok ∧
    ((runEpochs lr0 (vals.take k)).1.checkpoint = none ↔
      (runEpochs lr0 (vals.take k)).2.all (fun b => !b) = true) := by
  refine ⟨rfl, ?_, ?_⟩
  · show (match (runEpochs lr0 (vals.take k)).1.checkpoint with
      | some e => Except.ok e
      | none => Except.error ()) = _
    cases (runEpochs lr0 (vals.take k)).1.checkpoint <;> rfl
  · have h := runEpochsAux_checkpoint_none_iff (vals.take k)
      { best := none, lr := lr0, checkpoint := none } 1
    simpa [runEpochs] using h

theorem trainLogsAux_chunk (LI : Nat) (hLI : 1 ≤ LI) :
    ∀ (l : List ℚ) (n q : Nat) (t : ℚ), n < LI →
      trainLogsAux LI (q * LI + (LI - n)) t l =
        if l.length < n + 1 then []
        else ((t + (l.take (n + 1)).sum) / (LI : ℚ)) :: chunkMeans LI (l.drop (n + 1)) := by
  intro l
  induction l with
  | nil =>
    intro n q t hn
    simp [trainLogsAux]
  | cons ce rest ih =>
    intro n q t hn
    match n with
    | 0 =>
      have hcond : (q * LI + (LI - 0)) % LI = 0 ∧ 0 < q * LI + (LI - 0) := by
        constructor
        · have hbatch : q * LI + (LI - 0) = (q + 1) * LI := by
            rw [Nat.succ_mul]
            omega
          rw [hbatch]
          exact Nat.mul_mod_left (q + 1) LI
        · omega
      simp only [trainLogsAux]
      rw [if_pos hcond]
      have hb2 : q * LI + (LI - 0) + 1 = (q + 1) * LI + (LI - (LI - 1)) := by
        rw [Nat.succ_mul]
        omega
      rw [hb2, ih (LI - 1) (q + 1) 0 (by omega)]
      have hLI1 : LI - 1 + 1 = LI := by omega
      rw [hLI1]
      have hrhs : ¬((ce :: rest).length < 0 + 1) := by simp
      rw [if_neg hrhs]
      simp only [List.take_succ_cons, List.take_zero, List.sum_cons, List.sum_nil, add_zero,
        List.drop_succ_cons, List.drop_zero]
      congr 1
      conv_rhs => rw [chunkMeans]
      have hno0 : ¬(LI = 0) := by omega
      by_cases hrl : rest.length < LI
      · simp [hrl]
      · simp [hrl, hno0]
    | n' + 1 =>
      have hmodn : (q * LI + (LI - (n' + 1))) % LI = LI - (n' + 1) := by
        rw [Nat.add_comm, Nat.add_mul_mod_self_right]
        exact Nat.mod_eq_of_lt (by omega)
      have hcond : ¬((q * LI + (LI - (n' + 1))) % LI = 0 ∧ 0 < q * LI + (LI - (n' + 1))) := by
        rintro ⟨h1, -⟩
        rw [hmodn] at h1
        omega
      simp only [trainLogsAux]
      rw [if_neg hcond]
      have hb : q * LI + (LI - (n' + 1)) + 1 = q * LI + (LI - n') := by omega
      rw [hb, ih n' q (t + ce) (by omega)]
      simp only [List.length_cons, List.take_succ_cons, List.sum_cons, List.drop_succ_cons]
      by_cases hrl : rest.length < n' + 1
      · have h1 : rest.length + 1 < n' + 1 + 1 := by omega
        rw [if_pos hrl, if_pos h1]
      · have h1 : ¬(rest.length + 1 < n' + 1 + 1) := by omega
        rw [if_neg hrl, if_neg h1, add_assoc]

/-- Counterexample to C7 as stated: with `log_interval = 2` and per-window
cross-entropies `[1, 1, 1]`, the line emitted at window 2 reports
`(1 + 1 + 1) / 2 = 3/2`, but the arithmetic mean of the three cross-entropy
values accumulated since the last log (here, since the start of the epoch)
is `1`: the first log of an epoch divides a sum of `log_interval + 1`
values by `log_interval`. -/
theorem train_logging_counterexample :
    trainLogs 2 [1, 1, 1] = [3/2] ∧
    ((1 : ℚ) + 1 + 1) / 3 = 1 ∧
    (3/2 : ℚ) ≠ 1 := by
  refine ⟨?_, by norm_num, by norm_num⟩
  norm_num [trainLogs, trainLogsAux]

/-- C7 (amended): in every epoch a progress line is emitted exactly every
`log_interval` windows (skipping window 0), reporting the accumulated
cross-entropy sum divided by `log_interval` together with the exponential of
that reported value as perplexity, after which the accumulator is reset.
For every line after the first this quotient is the arithmetic mean of the
`log_interval` cross-entropy values since the last log; the first line of an
epoch instead divides the sum of the `log_interval + 1` values of windows
`0 .. log_interval` by `log_interval`. -/
theorem train_logging_amended (LI : Nat) (hLI : 1 ≤ LI) (ces : List ℚ) :
    trainLogs LI ces = trainLogsSpec LI ces ∧
    (trainLogs LI ces).map (fun c : ℚ => Real.exp (c : ℝ))
      = (trainLogsSpec LI ces).map (fun c : ℚ => Real.exp (c : ℝ)) := by
  have hmain : trainLogs LI ces = trainLogsSpec LI ces := by
    cases ces with
    | nil =>
      simp [trainLogs, trainLogsAux, trainLogsSpec]
    | cons ce rest =>
      unfold trainLogs
      simp only [trainLogsAux]
      have hc0 : ¬((0 : Nat) % LI = 0 ∧ 0 < 0) := by omega
      rw [if_neg hc0]
      have h1 : (0 : Nat) + 1 = 0 * LI + (LI - (LI - 1)) := by omega
      rw [h1, trainLogsAux_chunk LI hLI rest (LI - 1) 0 (0 + ce) (by omega)]
      unfold trainLogsSpec
      have hLI1 : LI - 1 + 1 = LI := by omega
      rw [hLI1]
      simp only [List.length_cons, List.take_succ_cons, List.sum_cons, List.drop_succ_cons,
        zero_add]
      by_cases hrl : rest.length < LI
      · have h2 : rest.length + 1 ≤ LI := by omega
        rw [if_pos hrl, if_pos h2]
      · have h2 : ¬(rest.length + 1 ≤ LI) := by omega
        rw [if_neg hrl, if_neg h2]
  exact ⟨hmain, by rw [hmain]⟩

theorem train_logging_amended_witness :
    1 ≤ 2 ∧
    (trainLogs 2 [1, 2, 3, 4, 5, 6] = trainLogsSpec 2 [1, 2, 3, 4, 5, 6] ∧
     (trainLogs 2 [1, 2, 3, 4, 5, 6]).map (fun c : ℚ => Real.exp (c : ℝ))
       = (trainLogsSpec 2 [1, 2, 3, 4, 5, 6]).map (fun c : ℚ => Real.exp (c : ℝ))) :=
  ⟨by decide, train_logging_amended 2 (by decide) [1, 2, 3, 4, 5, 6]⟩

theorem zero_grad_cons (p : Param) (ps : List Param) :
    zero_grad (p :: ps) = { p with grad := p.grad.map (fun _ => 0) } :: zero_grad ps := rfl

theorem backward_accum_cons (p : Param) (ps : List Param) (g : Option ℚ)
    (gs : List (Option ℚ)) :
    backward_accum (p :: ps) (g :: gs) =
      (match g with
       | none => p
       | some gv => { p with grad := some (p.grad.getD 0 + gv) }) :: backward_accum ps gs := rfl

theorem clip_grads_cons (c : ℚ) (p : Param) (ps : List Param) :
    clip_grads c (p :: ps) = { p with grad := p.grad.map (fun g => c * g) } :: clip_grads c ps :=
  rfl

/-- C5: in every optimizer step the parameters are updated, after clipping,
by `param := param - lr * grad` for every parameter with `requires_grad`
(here `c * g` is the clipped window gradient), parameters without a gradient
(`requires_grad` false) are skipped, and because the gradients are zeroed at
the start of the window before `backward` accumulates into them, the
resulting values depend only on the current window's gradients `gs`, never
on gradients left over from earlier windows. -/
theorem optimizer_step_spec (lr c : ℚ) :
    ∀ (ps : List Param) (gs : List (Option ℚ)),
      gs.length = ps.length →
      (∀ pg ∈ ps.zip gs, pg.1.requires_grad = true → pg.2.isSome = true) →
      ∃ ps', train_window_update lr c ps gs = some ps' ∧
        ps'.map Param.data = (ps.zip gs).map (fun pg =>
          if pg.1.requires_grad then pg.1.data - lr * (c * pg.2.getD 0) else pg.1.data) ∧
        ps'.length = ps.length := by
  intro ps
  induction ps with
  | nil =>
    intro gs hlen hg
    have hnil : gs = [] := List.eq_nil_of_length_eq_zero (by simpa using hlen)
    subst hnil
    exact ⟨[], rfl, rfl, rfl⟩
  | cons p ps ih =>
    intro gs hlen hg
    cases gs with
    | nil => simp at hlen
    | cons g gs' =>
      have hlen' : gs'.length = ps.length := by simpa using hlen
      have hg' : ∀ pg ∈ ps.zip gs', pg.1.requires_grad = true → pg.2.isSome = true := by
        intro pg hpg
        exact hg pg (by simp [hpg])
      obtain ⟨ps', hps', hdata, hlen2⟩ := ih gs' hlen' hg'
      unfold train_window_update at hps'
      cases hr : p.requires_grad with
      | true =>
        have hgs : g.isSome = true := hg (p, g) (by simp) hr
        obtain ⟨gv, hgv⟩ := Option.isSome_iff_exists.mp hgs
        subst hgv
        refine ⟨{ data := p.data + (-lr) * (c * (0 + gv)), requires_grad := p.requires_grad,
                  grad := some (c * (0 + gv)) } :: ps', ?_, ?_, ?_⟩
        · unfold train_window_update
          rw [zero_grad_cons, backward_accum_cons, clip_grads_cons]
          cases hp : p.grad with
          | none => simp [sgd_update, hp, hr, hps']
          | some a => simp [sgd_update, hp, hr, hps']
        · simp only [List.map_cons, List.zip_cons_cons, hdata, hr, if_true, zero_add]
          congr 1
          simp only [Option.getD_some]
          ring
        · simp [hlen2]
      | false =>
        cases g with
        | none =>
          cases hp : p.grad with
          | none =>
            refine ⟨{ data := p.data, requires_grad := p.requires_grad, grad := none }
                :: ps', ?_, ?_, ?_⟩
            · unfold train_window_update
              rw [zero_grad_cons, backward_accum_cons, clip_grads_cons]
              simp [sgd_update, hr, hp, hps']
            · simp [hdata, hr]
            · simp [hlen2]
          | some a =>
            refine ⟨{ data := p.data, requires_grad := p.requires_grad, grad := some (c * 0) }
                :: ps', ?_, ?_, ?_⟩
            · unfold train_window_update
              rw [zero_grad_cons, backward_accum_cons, clip_grads_cons]
              simp [sgd_update, hr, hp, hps']
            · simp [hdata, hr]
            · simp [hlen2]
        | some gv =>
          cases hp : p.grad with
          | none =>
            refine ⟨{ data := p.data, requires_grad := p.requires_grad,
                      grad := some (c * (0 + gv)) } :: ps', ?_, ?_, ?_⟩
            · unfold train_window_update
              rw [zero_grad_cons, backward_accum_cons, clip_grads_cons]
              simp [sgd_update, hr, hp, hps']
            · simp [hdata, hr]
            · simp [hlen2]
          | some a =>
            refine ⟨{ data := p.data, requires_grad := p.requires_grad,
                      grad := some (c * (0 + gv)) } :: ps', ?_, ?_, ?_⟩
            · unfold train_window_update
              rw [zero_grad_cons, backward_accum_cons, clip_grads_cons]
              simp [sgd_update, hr, hp, hps']
            · simp [hdata, hr]
            · simp [hlen2]

theorem optimizer_step_spec_witness :
    ([some (3 : ℚ), none] : List (Option ℚ)).length
        = [Param.mk 1 true (some 9), Param.mk 2 false none].length ∧
    (∀ pg ∈ [Param.mk 1 true (some 9), Param.mk 2 false none].zip
        ([some (3 : ℚ), none] : List (Option ℚ)),
      pg.1.requires_grad = true → pg.2.isSome = true) ∧
    (∃ ps', train_window_update 1 1 [Param.mk 1 true (some 9), Param.mk 2 false none]
        [some (3 : ℚ), none] = some ps' ∧
      ps'.map Param.data
        = ([Param.mk 1 true (some 9), Param.mk 2 false none].zip
            ([some (3 : ℚ), none] : List (Option ℚ))).map (fun pg =>
          if pg.1.requires_grad then pg.1.data - 1 * (1 * pg.2.getD 0) else pg.1.data) ∧
      ps'.length = [Param.mk 1 true (some 9), Param.mk 2 false none].length) :=
  ⟨by decide, by decide,
   optimizer_step_spec 1 1 [Param.mk 1 true (some 9), Param.mk 2 false none]
     [some (3 : ℚ), none] (by decide) (by decide)⟩

theorem get_batch_input_length (ds : List (List Nat)) (i bptt : Nat) :
    (get_batch ds i bptt).1.length = min bptt (ds.length - 1 - i) := by
  show ((ds.drop i).take (min bptt (ds.length - 1 - i))).length = _
  rw [List.length_take, List.length_drop]
  omega

theorem eval_fold {H O : Type} (crit : O → List Nat → ℚ) (bptt : Nat)
    (m : RNNModel H O) (ds : List (List Nat)) :
    ∀ (is : List Nat) (h0 : H) (t0 : ℚ),
      (is.foldl (fun (acc : ℚ × H) i =>
          let dt := get_batch ds i bptt
          let oh := m.forward m.training dt.1 acc.2
          (acc.1 + (dt.1.length : ℚ) * crit oh.1 dt.2, repackage_hidden oh.2)) (t0, h0)).1
        = t0 + ((is.zip (cesAux crit bptt m ds is h0)).map
            (fun p => ((get_batch ds p.1 bptt).1.length : ℚ) * p.2)).sum := by
  intro is
  induction is with
  | nil =>
    intro h0 t0
    simp [cesAux]
  | cons i is ih =>
    intro h0 t0
    simp only [List.foldl_cons, cesAux, List.zip_cons_cons, List.map_cons, List.sum_cons]
    rw [ih]
    ring

theorem evaluate_windowCEs {H O : Type} (crit : O → List Nat → ℚ) (bptt : Nat)
    (m : RNNModel H O) (ds : List (List Nat)) :
    (evaluate crit bptt m ds).1 =
      (((windowStarts ds.length bptt).zip (windowCEs crit bptt m ds)).map
        (fun p => ((get_batch ds p.1 bptt).1.length : ℚ) * p.2)).sum / (ds.length : ℚ) := by
  have h := eval_fold crit bptt { m with training := false } ds (windowStarts ds.length bptt)
    (evalInitHidden { m with training := false }) 0
  rw [zero_add] at h
  calc (evaluate crit bptt m ds).1
      = ((windowStarts ds.length bptt).foldl
          (fun (acc : ℚ × H) i =>
            let dt := get_batch ds i bptt
            let oh := ({ m with training := false } : RNNModel H O).forward
              ({ m with training := false } : RNNModel H O).training dt.1 acc.2
            (acc.1 + (dt.1.length : ℚ) * crit oh.1 dt.2, repackage_hidden oh.2))
          ((0 : ℚ), evalInitHidden { m with training := false })).1 / (ds.length : ℚ) := rfl
    _ = (((windowStarts ds.length bptt).zip (windowCEs crit bptt m ds)).map
          (fun p => ((get_batch ds p.1 bptt).1.length : ℚ) * p.2)).sum / (ds.length : ℚ) := by
        rw [h]
        rfl

/-- C6: `evaluate` returns the sum over windows of
`window_length * cross_entropy(window)` divided by the total number of steps
of the batchified stream (a length-weighted average loss), where the window
at offset `i` has length `min(bptt, steps - 1 - i)` and its cross-entropy is
taken along the hidden-state chain carried across the stream. -/
theorem evaluate_length_weighted {H O : Type} (crit : O → List Nat → ℚ) (bptt : Nat)
    (m : RNNModel H O) (ds : List (List Nat)) :
    (evaluate crit bptt m ds).1 =
      (((windowStarts ds.length bptt).zip (windowCEs crit bptt m ds)).map
        (fun p => ((min bptt (ds.length - 1 - p.1) : Nat) : ℚ) * p.2)).sum
      / (ds.length : ℚ) := by
  rw [evaluate_windowCEs]
  have hmap : ((windowStarts ds.length bptt).zip (windowCEs crit bptt m ds)).map
        (fun p => ((get_batch ds p.1 bptt).1.length : ℚ) * p.2)
      = ((windowStarts ds.length bptt).zip (windowCEs crit bptt m ds)).map
        (fun p => ((min bptt (ds.length - 1 - p.1) : Nat) : ℚ) * p.2) := by
    apply List.map_congr_left
    intro a _
    rw [get_batch_input_length]
  rw [hmap]

/-- C9: running `evaluate` on any data stream leaves every model parameter
unchanged: the model state after the call carries exactly the parameter list
it had before the call (only the training-mode flag is switched off). -/
theorem evaluate_no_param_mutation {H O : Type} (crit : O → List Nat → ℚ) (bptt : Nat)
    (m : RNNModel H O) (ds : List (List Nat)) :
    (evaluate crit bptt m ds).2.params = m.params := rfl

/-- C10: the validation and test streams are batchified with the fixed
stream-count `eval_batch_size = 10`, independently of the CLI batch size,
which affects only the training stream; every row of the validation and test
grids has width 10, and the evaluation loop initializes its hidden state for
exactly 10 parallel streams. -/
theorem eval_streams_fixed_width (tr v te : List Nat) (b b' : Nat) :
    eval_batch_size = 10 ∧
    (setupData tr v te b).2.1 = batchify v 10 ∧
    (setupData tr v te b).2.2 = batchify te 10 ∧
    (setupData tr v te b).2 = (setupData tr v te b').2 ∧
    (∀ row ∈ (setupData tr v te b).2.1, row.length = 10) ∧
    (∀ row ∈ (setupData tr v te b).2.2, row.length = 10) ∧
    (setupData tr v te b).1 = batchify tr b ∧
    (∀ (H O : Type) (mm : RNNModel H O), evalInitHidden mm = mm.init_hidden 10) :=
  ⟨rfl, rfl, rfl, rfl, batchify_row_length v 10, batchify_row_length te 10, rfl,
   fun _ _ _ => rfl⟩
